import Mathlib

/-!
Verification of the package state/selection model and action-orchestration
protocol of `src/gui/views/list.rs` (universal-android-debloater).

The `List` struct of the source is embedded as `ListState`; its `update`
method becomes the pure function `update`, which returns `none` exactly where
the Rust code would panic (slice indexing out of bounds or `Option::unwrap`
on `None`), and otherwise returns the new state together with the list of
dispatched adb commands (`Dispatch`), each carrying the message constructor
its asynchronous outcome is routed to.

Types that live in modules of this repository outside `src/` (enums from
`uad_lists.rs`, the `PackageRow` widget, `update_selection_count`,
`PackageState::opposite`) are modelled from the spec; each such definition
says so in its doc comment.
-/

/-- Modelled from the spec: package current state, `Enabled | Disabled |
Uninstalled` plus the `All` sentinel used only by the filter (`PackageState`
of `uad_lists.rs`, which is not under `src/`). -/
inductive PackageState
  | Enabled
  | Disabled
  | Uninstalled
  | All
deriving DecidableEq, Repr

/-- Modelled from the spec: removal classification
`Recommended | Advanced | Unsafe` plus the `All` sentinel (`Removal` of
`uad_lists.rs`, not under `src/`). -/
inductive Removal
  | Recommended
  | Advanced
  | Unsafe
  | All
deriving DecidableEq, Repr

/-- Modelled from the spec: catalog-list membership, an enum including an
`All` sentinel (`UadList` of `uad_lists.rs`, not under `src/`). -/
inductive UadList
  | All
  | Aosp
  | Carrier
  | Google
  | Misc
  | Oem
deriving DecidableEq, Repr

/-- A device user: `User { id, index }` from `sync.rs` (used by value in
`list.rs`; index 0 is the primary user). -/
structure User where
  id : Nat
  index : Nat
deriving DecidableEq, Repr

/-- Modelled from the spec: catalog metadata for one package identifier
(`Package` of `uad_lists.rs`, not under `src/`): list membership, removal
classification, description. -/
structure Package where
  list : UadList
  removal : Removal
  description : String
deriving DecidableEq, Repr

/-- The catalog mapping package identifier to metadata
(`HashMap<String, Package>` in the source, as an association list). -/
abbrev Catalog := List (String × Package)

/-- Modelled from the spec: catalog load status (`UadListState` of
`uad_lists.rs`, not under `src/`): `Done` for a successful remote load,
`Failed` for the embedded fallback. -/
inductive UadListState
  | Done
  | Failed
deriving DecidableEq, Repr

/-- Modelled from the spec: one row of the per-user package table
(`PackageRow` of `package_row.rs`, not under `src/`), with the fields
`list.rs` reads and writes. -/
structure PackageRow where
  name : String
  state : PackageState
  description : String
  uad_list : UadList
  removal : Removal
  selected : Bool
  current : Bool
deriving DecidableEq, Repr

/-- Default row used as the `getD` placeholder; every access in `update` is
guarded by the bounds check that the Rust indexing would enforce by
panicking, so this value is never observable. -/
def defRow : PackageRow :=
  { name := "", state := PackageState.Enabled, description := "",
    uad_list := UadList.Misc, removal := Removal.Recommended,
    selected := false, current := false }

/-- The `Selection` struct of `list.rs`: three running counters plus the
vector of selected `phone_packages` indices (counters are `u16` in the
source; modelled as `Nat`, decrement as truncated subtraction). -/
structure Selection where
  uninstalled : Nat
  enabled : Nat
  disabled : Nat
  selected_packages : List Nat
deriving DecidableEq, Repr

/-- The `PackageInfo` struct of `list.rs`, echoed back through a command
outcome: optional target-user override, package index, removal as text. -/
structure PackageInfo where
  i_user : Option Nat
  index : Nat
  removal : String
deriving DecidableEq, Repr

/-- The `CommandType` payload of a command outcome (`sync.rs`); `list.rs`
only ever matches the `PackageManager` variant. -/
inductive CommandType
  | PackageManager (p : PackageInfo)
deriving DecidableEq, Repr

/-- `Result<CommandType, ()>`: the typed outcome of one adb command. -/
inductive CmdResult
  | ok (c : CommandType)
  | error
deriving DecidableEq, Repr

/-- The `LoadingState` enum of `list.rs` (`_UpdatingUad` renamed to
`UpdatingUad`). -/
inductive LoadingState
  | DownloadingList (s : String)
  | FindingPhones (s : String)
  | LoadingPackages (s : String)
  | UpdatingUad (s : String)
  | Ready (s : String)
  | RestoringDevice (s : String)
deriving DecidableEq, Repr

/-- The `Action` enum of `list.rs` (renamed `UadAction`: `Action` is taken
by Mathlib): the requested direction of a bulk operation. -/
inductive UadAction
  | Remove
  | Restore
deriving DecidableEq, Repr

/-- The `Message` enum of `package_row.rs` as used by `list.rs`. -/
inductive RowMessage
  | ToggleSelection (toggle : Bool)
  | ActionPressed
  | PackagePressed
deriving DecidableEq, Repr

/-- The `Message` enum of `list.rs`. `Message::List` is renamed `ListMsg` to
avoid clashing with the `List` type. -/
inductive Message
  | LoadUadList (remote : Bool)
  | LoadPhonePackages (lb : Catalog × UadListState)
  | RestoringDevice (res : CmdResult)
  | ApplyFilters (packages : List (List PackageRow))
  | SearchInputChanged (letter : String)
  | ToggleAllSelected (selected : Bool)
  | ListSelected (l : UadList)
  | UserSelected (user : User)
  | PackageStateSelected (ps : PackageState)
  | RemovalSelected (r : Removal)
  | ApplyActionOnSelection (action : UadAction)
  | ListMsg (i_package : Nat) (rm : RowMessage)
  | ChangePackageState (res : CmdResult)
  | Nothing
deriving Repr

/-- One dispatched adb command: the `PackageInfo` context and the adb action
string handed to `perform_adb_commands`, plus the message constructor its
asynchronous outcome is mapped through (`Command::perform`'s second
argument). -/
structure Dispatch where
  p_info : PackageInfo
  action : String
  onResult : CmdResult → Message

/-- The configuration flags `list.rs` reads: `settings.general.expert_mode`,
`settings.device.multi_user_mode`, `settings.device.disable_mode`. -/
structure Settings where
  expert_mode : Bool
  multi_user_mode : Bool
  disable_mode : Bool
deriving DecidableEq, Repr

/-- The `List` struct of `list.rs` (renamed `ListState`: `List` is taken by
the list type). -/
structure ListState where
  loading_state : LoadingState
  uad_lists : Catalog
  phone_packages : List (List PackageRow)
  filtered_packages : List Nat
  selection : Selection
  selected_package_state : Option PackageState
  selected_removal : Option Removal
  selected_list : Option UadList
  selected_user : Option User
  input_value : String
  description : String
  current_package_index : Nat
deriving DecidableEq, Repr

/-- The type of `action_handler` from `sync.rs` (not under `src/`): an
abstract policy function producing the ordered (user-override, adb command)
pairs for one package; the device and device settings are fixed for a
session and folded into the function. -/
abbrev ActionHandler := User → PackageRow → List (Option Nat × String)

/-- `a.isPrefixOf b` on character lists, written out. -/
def prefList : List Char → List Char → Bool
  | [], _ => true
  | _ :: _, [] => false
  | a :: as, b :: bs => a == b && prefList as bs

/-- Substring search on character lists. -/
def subLi (pat : List Char) : List Char → Bool
  | [] => prefList pat []
  | c :: cs => prefList pat (c :: cs) || subLi pat cs

/-- Rust's `str::contains` for a string pattern: case-sensitive substring
containment. -/
def strContains (hay pat : String) : Bool :=
  subLi pat.data hay.data

/-- The row predicate of `List::filter_package_lists`: conjunction of the
four filter predicates, each enum predicate ignored at its `All` sentinel,
an empty search string matching everything. -/
def rowMatches (list_filter : UadList) (package_filter : PackageState)
    (removal_filter : Removal) (input_value : String) (p : PackageRow) : Bool :=
  (decide (list_filter = UadList.All) || decide (p.uad_list = list_filter))
    && (decide (package_filter = PackageState.All) || decide (p.state = package_filter))
    && (decide (removal_filter = Removal.All) || decide (p.removal = removal_filter))
    && (input_value.isEmpty || strContains p.name input_value)

/-- Modelled from the spec: `update_selection_count` of `utils.rs` (not
under `src/`): increment (`add = true`) or decrement (`add = false`) the
counter matching the given package state. Rows never carry the `All`
sentinel, so it is left untouched. -/
def update_selection_count (sel : Selection) (ps : PackageState) (add : Bool) : Selection :=
  match ps with
  | PackageState.Uninstalled =>
      { sel with uninstalled := if add then sel.uninstalled + 1 else sel.uninstalled - 1 }
  | PackageState.Enabled =>
      { sel with enabled := if add then sel.enabled + 1 else sel.enabled - 1 }
  | PackageState.Disabled =>
      { sel with disabled := if add then sel.disabled + 1 else sel.disabled - 1 }
  | PackageState.All => sel

/-- Modelled from the spec: `PackageState::opposite(disable_mode)` of
`uad_lists.rs` (not under `src/`): the remove/restore state transition,
where `disable_mode` decides whether remove means `Disabled` or
`Uninstalled`, and restore always re-enables. -/
def PackageState.opposite (s : PackageState) (disable_mode : Bool) : PackageState :=
  match s with
  | PackageState.Enabled => if disable_mode then PackageState.Disabled else PackageState.Uninstalled
  | PackageState.Disabled => PackageState.Enabled
  | PackageState.Uninstalled => PackageState.Enabled
  | PackageState.All => PackageState.All

/-- Modelled from the spec: the `Display` text of a removal classification
(`package.removal.to_string()`). -/
def Removal.str : Removal → String
  | Removal.Recommended => "Recommended"
  | Removal.Advanced => "Advanced"
  | Removal.Unsafe => "Unsafe"
  | Removal.All => "All"

/-- `phone_packages[u][i]` read (with the never-observable default). -/
def getRow (pp : List (List PackageRow)) (u i : Nat) : PackageRow :=
  (pp.getD u []).getD i defRow

/-- `phone_packages[u][i] = r` write. -/
def setRow (pp : List (List PackageRow)) (u i : Nat) (r : PackageRow) :
    List (List PackageRow) :=
  pp.set u ((pp.getD u []).set i r)

/-- `List::filter_package_lists`: recompute `filtered_packages` as the
indices of the active user's rows satisfying `rowMatches`, in table order.
`none` models the `unwrap` panics on unset filters/user and the indexing
panic on an out-of-range active user. -/
def ListState.filter_package_lists (s : ListState) : Option ListState :=
  match s.selected_list, s.selected_package_state, s.selected_removal, s.selected_user with
  | some list_filter, some package_filter, some removal_filter, some user =>
      if user.index < s.phone_packages.length then
        some { s with filtered_packages :=
          (((s.phone_packages.getD user.index []).enum.filter
              (fun ip => rowMatches list_filter package_filter removal_filter s.input_value ip.2)).map
            Prod.fst) }
      else none
  | _, _, _, _ => none

/-- Handler of `Message::ApplyFilters`: install the freshly built table,
reset the enum filters to their defaults (`Enabled`, `Recommended`, `All`),
make user 0 active, re-filter, and enter `Ready`. -/
def onApplyFilters (s : ListState) (i_user : Nat) (packages : List (List PackageRow)) :
    Option (ListState × List Dispatch) :=
  if i_user < packages.length then
    let s1 : ListState := { s with
      phone_packages := packages,
      filtered_packages := List.range (packages.getD i_user []).length,
      selected_package_state := some PackageState.Enabled,
      selected_removal := some Removal.Recommended,
      selected_list := some UadList.All,
      selected_user := some { id := 0, index := 0 } }
    match s1.filter_package_lists with
    | some s2 => some ({ s2 with loading_state := LoadingState.Ready "" }, [])
    | none => none
  else none

/-- One iteration of the `Message::ToggleAllSelected` loop over
`filtered_packages`, threading (table, selection). -/
def toggleAllStep (i_user : Nat) (selected : Bool)
    (acc : List (List PackageRow) × Selection) (i : Nat) :
    Option (List (List PackageRow) × Selection) :=
  if i_user < acc.1.length ∧ i < (acc.1.getD i_user []).length then
    let row := getRow acc.1 i_user i
    let pp1 := setRow acc.1 i_user i { row with selected := selected }
    if selected then
      if acc.2.selected_packages.contains i then some (pp1, acc.2)
      else
        some (pp1, update_selection_count
          { acc.2 with selected_packages := acc.2.selected_packages ++ [i] } row.state true)
    else
      if acc.2.selected_packages.contains i then
        let sel1 := update_selection_count acc.2 row.state false
        some (pp1, { sel1 with selected_packages :=
          sel1.selected_packages.filter (fun s_i => decide (s_i ≠ i)) })
      else some (pp1, acc.2)
  else none

/-- Handler of `Message::ToggleAllSelected`. -/
def onToggleAll (s : ListState) (i_user : Nat) (selected : Bool) :
    Option (ListState × List Dispatch) :=
  match s.filtered_packages.foldlM (toggleAllStep i_user selected)
      (s.phone_packages, s.selection) with
  | some (pp, sel) => some ({ s with phone_packages := pp, selection := sel }, [])
  | none => none

/-- The selection after a non-gated single toggle: push or drain the index,
then update the counter for the row's current state with the new flag. -/
def toggleSel (s : ListState) (i_user i_package : Nat) (toggle : Bool) : Selection :=
  let sel0 :=
    if toggle then
      { s.selection with selected_packages := s.selection.selected_packages ++ [i_package] }
    else
      { s.selection with selected_packages :=
        s.selection.selected_packages.filter (fun s_i => decide (s_i ≠ i_package)) }
  update_selection_count sel0 (getRow s.phone_packages i_user i_package).state toggle

/-- Handler of `RowMessage::ToggleSelection` (bounds already checked by the
`Message::List` arm): the Unsafe gate forces `selected := false` and touches
nothing else; otherwise set the flag and update the selection via
`toggleSel`. -/
def onToggleSelection (settings : Settings) (s : ListState) (i_user i_package : Nat)
    (toggle : Bool) : Option (ListState × List Dispatch) :=
  let package := getRow s.phone_packages i_user i_package
  if decide (package.removal = Removal.Unsafe) && !settings.expert_mode then
    some ({ s with
      phone_packages := setRow s.phone_packages i_user i_package
        { package with selected := false } }, [])
  else
    some ({ s with
      phone_packages := setRow s.phone_packages i_user i_package
        { package with selected := toggle },
      selection := toggleSel s i_user i_package toggle }, [])

/-- The dispatch plan for one package: one `Dispatch` per (user-override,
command) pair from `action_handler`, the first pair routed to
`Message::ChangePackageState` and every later pair to `Message::Nothing`. -/
def planDispatches (ah : ActionHandler) (u : User) (package : PackageRow) (index : Nat) :
    List Dispatch :=
  ((ah u package).enum).map (fun x =>
    { p_info := { i_user := x.2.1, index := index, removal := package.removal.str },
      action := x.2.2,
      onResult := if x.1 = 0 then Message.ChangePackageState else fun _ => Message.Nothing })

/-- Handler of `RowMessage::ActionPressed` (bounds already checked):
dispatch the plan for this row; the state is unchanged. `none` models the
`selected_user.unwrap()` panic. -/
def onActionPressed (ah : ActionHandler) (s : ListState) (i_user i_package : Nat) :
    Option (ListState × List Dispatch) :=
  match s.selected_user with
  | none => none
  | some u => some (s, planDispatches ah u (getRow s.phone_packages i_user i_package) i_package)

/-- Handler of `RowMessage::PackagePressed` (bounds already checked). -/
def onPackagePressed (s : ListState) (i_user i_package : Nat) :
    Option (ListState × List Dispatch) :=
  let package := getRow s.phone_packages i_user i_package
  let s1 := { s with
    description := package.description,
    phone_packages := setRow s.phone_packages i_user i_package { package with current := true } }
  if s.current_package_index ≠ i_package then
    if s.current_package_index < (s1.phone_packages.getD i_user []).length then
      let old := getRow s1.phone_packages i_user s.current_package_index
      some ({ s1 with
        phone_packages :=
          setRow s1.phone_packages i_user s.current_package_index { old with current := false },
        current_package_index := i_package }, [])
    else none
  else some ({ s1 with current_package_index := i_package }, [])

/-- Direction consistency of `Message::ApplyActionOnSelection`: the
complement of the `drain_filter` predicate — `Remove` keeps currently
`Enabled` rows, `Restore` keeps currently non-`Enabled` rows. -/
def consistentB (a : UadAction) (st : PackageState) : Bool :=
  match a with
  | UadAction.Remove => decide (st = PackageState.Enabled)
  | UadAction.Restore => decide (¬st = PackageState.Enabled)

/-- Handler of `Message::ApplyActionOnSelection`: drop direction-inconsistent
indices from a clone of the selection, then dispatch every surviving index's
plan; the state is unchanged and dropped indices produce nothing. -/
def onApplySelection (ah : ActionHandler) (s : ListState) (i_user : Nat) (action : UadAction) :
    Option (ListState × List Dispatch) :=
  let table := s.phone_packages.getD i_user []
  if s.selection.selected_packages.all
      (fun i => decide (i_user < s.phone_packages.length) && decide (i < table.length)) then
    let survivors :=
      s.selection.selected_packages.filter (fun i => consistentB action (table.getD i defRow).state)
    match survivors, s.selected_user with
    | [], _ => some (s, [])
    | l, some u => some (s, l.bind (fun i => planDispatches ah u (table.getD i defRow) i))
    | _ :: _, none => none
  else none

/-- The first loop of `Message::UserSelected`: clear the `selected` flag on
every row of the (previously) active user. -/
def clearedOldUser (s : ListState) (i_user : Nat) : List (List PackageRow) :=
  s.phone_packages.set i_user
    ((s.phone_packages.getD i_user []).map (fun p => { p with selected := false }))

/-- The table after `Message::UserSelected`'s two loops: old user's flags
cleared, then the `selected` flag set on the new user's row at every index
of the selection set. -/
def userSelTable (s : ListState) (i_user : Nat) (user : User) : List (List PackageRow) :=
  s.selection.selected_packages.foldl
    (fun pp i => setRow pp user.index i { getRow pp user.index i with selected := true })
    (clearedOldUser s i_user)

/-- Handler of `Message::UserSelected`: clear the old user's `selected`
flags, switch the active user, re-flag the new user's rows at the selection
indices, and recompute the filtered view for the new user. -/
def onUserSelected (s : ListState) (i_user : Nat) (user : User) :
    Option (ListState × List Dispatch) :=
  if i_user < s.phone_packages.length then
    if decide (user.index < (clearedOldUser s i_user).length)
        && s.selection.selected_packages.all
          (fun i => decide (i < ((clearedOldUser s i_user).getD user.index []).length)) then
      (({ s with
          phone_packages := userSelTable s i_user user,
          selected_user := some user,
          filtered_packages := List.range ((userSelTable s i_user user).getD user.index []).length } : ListState).filter_package_lists).map
        (fun s2 => (s2, []))
    else none
  else none

/-- The selection after a successful outcome: the counter of the
active-user row's current state is decremented and the index drained. -/
def chgSel (s : ListState) (i_user : Nat) (p : PackageInfo) : Selection :=
  let sel0 := update_selection_count s.selection (getRow s.phone_packages i_user p.index).state false
  { sel0 with selected_packages :=
    sel0.selected_packages.filter (fun s_i => decide (s_i ≠ p.index)) }

/-- The table after flipping the state of the row at (`i_user`, `p.index`)
with `opposite` and forcing its `selected` flag off. -/
def chgTableSingle (cfg : Settings) (s : ListState) (i_user : Nat) (p : PackageInfo) :
    List (List PackageRow) :=
  setRow s.phone_packages i_user p.index
    { getRow s.phone_packages i_user p.index with
      state := (getRow s.phone_packages i_user p.index).state.opposite cfg.disable_mode,
      selected := false }

/-- Which row a successful outcome mutates: with `multi_user_mode` and a
target-user override, the override user's row (panicking — `none` — when out
of range); otherwise the active user's row. -/
def chgTable (cfg : Settings) (s : ListState) (i_user : Nat) (p : PackageInfo) :
    Option (List (List PackageRow)) :=
  match p.i_user, cfg.multi_user_mode with
  | some iu, true =>
      if decide (iu < s.phone_packages.length)
          && decide (p.index < (s.phone_packages.getD iu []).length) then
        some (chgTableSingle cfg s iu p)
      else none
  | _, _ => some (chgTableSingle cfg s i_user p)

/-- Handler of `Message::ChangePackageState`: fold one command outcome. A
failed result is ignored entirely. On success: decrement the counter for the
active-user row's current state, mutate the row `chgTable` picks, drain the
index from the selection, re-filter. -/
def onChangePackageState (settings : Settings) (s : ListState) (i_user : Nat)
    (res : CmdResult) : Option (ListState × List Dispatch) :=
  match res with
  | CmdResult.ok (CommandType.PackageManager p) =>
      if decide (i_user < s.phone_packages.length)
          && decide (p.index < (s.phone_packages.getD i_user []).length) then
        match chgTable settings s i_user p with
        | some pp1 =>
            (({ s with
                phone_packages := pp1,
                selection := chgSel s i_user p } : ListState).filter_package_lists).map
              (fun s2 => (s2, []))
        | none => none
      else none
  | CmdResult.error => some (s, [])

/-- Handler of `Message::RestoringDevice`. -/
def onRestoringDevice (s : ListState) (i_user : Nat) (res : CmdResult) :
    Option (ListState × List Dispatch) :=
  match res with
  | CmdResult.ok (CommandType.PackageManager p) =>
      if decide (i_user < s.phone_packages.length)
          && decide (p.index < (s.phone_packages.getD i_user []).length) then
        some ({ s with loading_state :=
          LoadingState.RestoringDevice (getRow s.phone_packages i_user p.index).name }, [])
      else none
  | CmdResult.error =>
      some ({ s with loading_state := LoadingState.RestoringDevice "Error [TODO]" }, [])

/-- The index of the currently active user: `selected_user` defaulting to
user 0, as computed at the top of `List::update`. -/
def activeIndex (s : ListState) : Nat :=
  (s.selected_user.getD { id := 0, index := 0 }).index

/-- `List::update`: the controller step function. Returns the new state and
the dispatched adb commands; `none` models a Rust panic. The external
`list_update_state` cell written by `LoadPhonePackages` and the logging /
`env::set_var` side effects are outside the state and not modelled. The
`Message::List` arm's initial `package.update(row_message)` call (widget
code outside `src/`, its returned command discarded by the source) is
modelled as a no-op: every field the `list.rs` arms read or write is set by
the arms themselves. In `ApplyActionOnSelection` the per-iteration indexing
panics of `drain_filter` and of the dispatch loop are folded into one
up-front bounds check over the selection. -/
def update (ah : ActionHandler) (settings : Settings) (s : ListState) (msg : Message) :
    Option (ListState × List Dispatch) :=
  let i_user := activeIndex s
  match msg with
  | Message.RestoringDevice res => onRestoringDevice s i_user res
  | Message.LoadUadList _ =>
      some ({ s with loading_state := LoadingState.DownloadingList "" }, [])
  | Message.LoadPhonePackages lb =>
      some ({ s with loading_state := LoadingState.LoadingPackages "", uad_lists := lb.1 }, [])
  | Message.ApplyFilters packages => onApplyFilters s i_user packages
  | Message.SearchInputChanged letter =>
      (({ s with input_value := letter } : ListState).filter_package_lists).map (fun s1 => (s1, []))
  | Message.ToggleAllSelected selected => onToggleAll s i_user selected
  | Message.ListSelected l =>
      (({ s with selected_list := some l } : ListState).filter_package_lists).map (fun s1 => (s1, []))
  | Message.UserSelected user => onUserSelected s i_user user
  | Message.PackageStateSelected ps =>
      (({ s with selected_package_state := some ps } : ListState).filter_package_lists).map
        (fun s1 => (s1, []))
  | Message.RemovalSelected r =>
      (({ s with selected_removal := some r } : ListState).filter_package_lists).map
        (fun s1 => (s1, []))
  | Message.ApplyActionOnSelection action => onApplySelection ah s i_user action
  | Message.ListMsg i_package rm =>
      if decide (i_user < s.phone_packages.length)
          && decide (i_package < (s.phone_packages.getD i_user []).length) then
        match rm with
        | RowMessage.ToggleSelection toggle => onToggleSelection settings s i_user i_package toggle
        | RowMessage.ActionPressed => onActionPressed ah s i_user i_package
        | RowMessage.PackagePressed => onPackagePressed s i_user i_package
      else none
  | Message.ChangePackageState res => onChangePackageState settings s i_user res
  | Message.Nothing => some (s, [])

/-- The outcome of `load_debloat_lists(remote)` (external collaborator):
`ok` carries the remote catalog, `err` the embedded/local fallback. -/
inductive LoadListsResult
  | ok (list : Catalog)
  | err (local_list : Catalog)
deriving DecidableEq, Repr

/-- `List::init_apps_view`, parametrized by the `load_debloat_lists`
outcome: a successful remote load yields the remote catalog with `Done`, a
failed one the embedded fallback with `Failed`; never a hard error. -/
def init_apps_view : LoadListsResult → Catalog × UadListState
  | LoadListsResult.ok list => (list, UadListState.Done)
  | LoadListsResult.err local_list => (local_list, UadListState.Failed)

/-- Run a sequence of messages through `update`, keeping only the state
(`none` as soon as any step panics). -/
def runMsgs (ah : ActionHandler) (settings : Settings) (s : ListState) (msgs : List Message) :
    Option ListState :=
  msgs.foldlM (fun st m => (update ah settings st m).map Prod.fst) s

/-- The filtered view as the claim states it: the indices of the table rows
satisfying the conjunction of the four predicates, in original table order
(a stable filter of the full index range). -/
def spec_filtered_view (table : List PackageRow) (lf : UadList) (pf : PackageState)
    (rf : Removal) (input : String) : List Nat :=
  (List.range table.length).filter (fun j => rowMatches lf pf rf input (table.getD j defRow))

/-- A concrete two-row table used by the witnesses. -/
def rowA : PackageRow :=
  { name := "com.android.chrome", state := PackageState.Enabled, description := "d1",
    uad_list := UadList.Google, removal := Removal.Recommended, selected := false,
    current := false }

/-- A second concrete row (disabled, advanced, AOSP). -/
def rowB : PackageRow :=
  { name := "com.test.b", state := PackageState.Disabled, description := "d2",
    uad_list := UadList.Aosp, removal := Removal.Advanced, selected := false,
    current := false }

/-- A concrete `Ready` state over the table `[rowA, rowB]` with sentinel
filters and an empty search string. -/
def sC1 : ListState :=
  { loading_state := LoadingState.Ready "", uad_lists := [],
    phone_packages := [[rowA, rowB]], filtered_packages := [],
    selection := { uninstalled := 0, enabled := 0, disabled := 0, selected_packages := [] },
    selected_package_state := some PackageState.All,
    selected_removal := some Removal.All, selected_list := some UadList.All,
    selected_user := some { id := 0, index := 0 }, input_value := "",
    description := "", current_package_index := 0 }

/-- An action handler that plans nothing (irrelevant to these messages). -/
def ahNone : ActionHandler := fun _ _ => []

/-- Default configuration flags. -/
def cfg0 : Settings := { expert_mode := false, multi_user_mode := false, disable_mode := false }

/-- Configuration with `multi_user_mode` enabled. -/
def cfgM : Settings := { expert_mode := false, multi_user_mode := true, disable_mode := false }

/-- A concrete Unsafe-classified, currently enabled row. -/
def rowU : PackageRow :=
  { name := "com.core.critical", state := PackageState.Enabled, description := "dU",
    uad_list := UadList.Oem, removal := Removal.Unsafe, selected := false, current := false }

/-- `sC1` with a one-row table holding the Unsafe row. -/
def sC6 : ListState := { sC1 with phone_packages := [[rowU]] }

/-- A three-pair action plan (primary user first, two mirrored users). -/
def ah3 : ActionHandler := fun _ _ => [(none, "c0"), (some 1, "c1"), (some 2, "c2")]

/-- `sC1` with rows 0 (`Enabled`) and 1 (`Disabled`) both selected. -/
def sC7 : ListState :=
  { sC1 with selection :=
      { uninstalled := 0, enabled := 1, disabled := 1, selected_packages := [0, 1] } }

/-- A two-user table with row 0 selected for user 0. -/
def sC10 : ListState :=
  { sC1 with
    phone_packages := [[rowA, rowB], [rowB, rowA]],
    selection := { uninstalled := 0, enabled := 1, disabled := 0, selected_packages := [0] } }

/-- Counter/selection consistency over a given table and selection: each
running counter equals the count of selected indices whose row currently has
that state, and the selection vector has no duplicates. -/
abbrev PInv (i_user : Nat) (pp : List (List PackageRow)) (sel : Selection) : Prop :=
  sel.enabled = sel.selected_packages.countP
      (fun i => decide ((getRow pp i_user i).state = PackageState.Enabled))
  ∧ sel.disabled = sel.selected_packages.countP
      (fun i => decide ((getRow pp i_user i).state = PackageState.Disabled))
  ∧ sel.uninstalled = sel.selected_packages.countP
      (fun i => decide ((getRow pp i_user i).state = PackageState.Uninstalled))
  ∧ sel.selected_packages.Nodup

/-- C2's consistency property for a whole controller state. -/
abbrev SelCounterInv (s : ListState) : Prop :=
  PInv (activeIndex s) s.phone_packages s.selection

/-- A Boolean version of `SelCounterInv` (for the counterexample). -/
def counters_consistent (s : ListState) : Bool :=
  decide (SelCounterInv s)

/-- A membership-transition toggle step: a bulk toggle, or a single toggle
that either hits the Unsafe gate or genuinely changes membership (select of
a non-member, deselect of a member). -/
abbrev goodToggle (cfg : Settings) (s : ListState) (m : Message) : Prop :=
  match m with
  | Message.ToggleAllSelected _ => True
  | Message.ListMsg i (RowMessage.ToggleSelection t) =>
      ((getRow s.phone_packages (activeIndex s) i).removal = Removal.Unsafe
        ∧ cfg.expert_mode = false)
      ∨ (t = true ∧ i ∉ s.selection.selected_packages)
      ∨ (t = false ∧ i ∈ s.selection.selected_packages)
  | _ => False

/-- A run of toggle messages, each a `goodToggle` at the state it meets and
each succeeding (no panic). -/
inductive GoodRun (ah : ActionHandler) (cfg : Settings) :
    ListState → List Message → ListState → Prop
  | nil (s : ListState) : GoodRun ah cfg s [] s
  | cons {s s1 s2 : ListState} {m : Message} {ms : List Message} {ds : List Dispatch} :
      goodToggle cfg s m → update ah cfg s m = some (s1, ds) →
      GoodRun ah cfg s1 ms s2 → GoodRun ah cfg s (m :: ms) s2

/-! ### Basic lemmas about indexed reads and writes -/

theorem getD_set {α : Type _} (l : List α) (i j : Nat) (a d : α) :
    (l.set i a).getD j d = if i = j ∧ j < l.length then a else l.getD j d := by
  by_cases hij : i = j
  · subst hij
    by_cases hj : i < l.length
    · simp [List.getD_eq_getElem?_getD, List.getElem?_set_self hj, hj]
    · rw [List.set_eq_of_length_le (Nat.le_of_not_lt hj)]
      simp [hj]
  · simp [List.getD_eq_getElem?_getD, List.getElem?_set_ne hij, hij]

theorem length_setRow (pp : List (List PackageRow)) (u i : Nat) (r : PackageRow) :
    (setRow pp u i r).length = pp.length := by
  simp [setRow]

theorem getD_setRow_len (pp : List (List PackageRow)) (u i v : Nat) (r : PackageRow) :
    ((setRow pp u i r).getD v []).length = (pp.getD v []).length := by
  unfold setRow
  rw [getD_set]
  by_cases h : u = v ∧ v < pp.length
  · rw [if_pos h, List.length_set, h.1]
  · rw [if_neg h]

theorem getRow_setRow (pp : List (List PackageRow)) (u i v j : Nat) (r : PackageRow) :
    getRow (setRow pp u i r) v j =
      if u = v ∧ i = j ∧ u < pp.length ∧ i < (pp.getD u []).length then r
      else getRow pp v j := by
  unfold getRow setRow
  rw [getD_set]
  by_cases huv : u = v
  · subst huv
    by_cases hu : u < pp.length
    · rw [if_pos ⟨rfl, hu⟩, getD_set]
      by_cases hij : i = j
      · subst hij
        by_cases hi : i < (pp.getD u []).length
        · rw [if_pos ⟨rfl, hi⟩, if_pos ⟨rfl, rfl, hu, hi⟩]
        · rw [if_neg (by tauto), if_neg (by tauto)]
      · rw [if_neg (by tauto), if_neg (by tauto)]
    · rw [if_neg (by tauto), if_neg (by tauto)]
  · rw [if_neg (by tauto), if_neg (by tauto)]

theorem state_getRow_setRow (pp : List (List PackageRow)) (u i v j : Nat) (r : PackageRow)
    (h : r.state = (getRow pp u i).state) :
    (getRow (setRow pp u i r) v j).state = (getRow pp v j).state := by
  rw [getRow_setRow]
  split
  · next h' => rw [h, h'.1, h'.2.1]
  · rfl

/-! ### The filtered view as a filter of the index range -/

theorem enumFrom_filter_map_fst {α : Type _} (P : α → Bool) (d : α) :
    ∀ (l : List α) (k : Nat),
      ((l.enumFrom k).filter (fun ip => P ip.2)).map Prod.fst
        = ((List.range l.length).filter (fun j => P (l.getD j d))).map (fun j => k + j)
  | [], k => by simp
  | x :: xs, k => by
      have ih := enumFrom_filter_map_fst P d xs (k + 1)
      have hpred : ∀ j : Nat, P ((x :: xs).getD (j + 1) d) = P (xs.getD j d) := by
        intro j; rw [List.getD_cons_succ]
      simp only [List.enumFrom_cons, List.filter_cons, List.length_cons,
        List.range_succ_eq_map, List.getD_cons_zero]
      have hfun : ((fun j : Nat => k + j) ∘ Nat.succ) = (fun j : Nat => k + 1 + j) := by
        funext j
        simp only [Function.comp_apply]
        omega
      have hfil : (List.range xs.length).filter ((fun j : Nat => P ((x :: xs).getD j d)) ∘ Nat.succ)
          = (List.range xs.length).filter (fun j => P (xs.getD j d)) := by
        apply List.filter_congr
        intro j _
        simp only [Function.comp_apply]
        exact hpred j
      by_cases hx : P x
      · rw [if_pos (by simpa using hx), if_pos (by simpa using hx)]
        simp only [List.map_cons, Nat.add_zero]
        congr 1
        rw [ih, List.filter_map, List.map_map, hfun, hfil]
      · rw [if_neg (by simpa using hx), if_neg (by simpa using hx)]
        rw [ih, List.filter_map, List.map_map, hfun, hfil]

theorem enum_filter_map_fst {α : Type _} (P : α → Bool) (d : α) (l : List α) :
    ((l.enum.filter (fun ip => P ip.2)).map Prod.fst)
      = (List.range l.length).filter (fun j => P (l.getD j d)) := by
  have h : l.enum = l.enumFrom 0 := rfl
  rw [h, enumFrom_filter_map_fst P d l 0]
  have h0 : (fun j : Nat => 0 + j) = fun j : Nat => j := by funext j; omega
  rw [h0]
  simp

/-- `filter_package_lists` succeeds whenever the filters and user are set and
the user is in range, and computes exactly the range-filter of the active
user's table by the four-predicate conjunction, in original order. -/
theorem filter_package_lists_spec (s : ListState) {lf : UadList} {pf : PackageState}
    {rf : Removal} {u : User}
    (hl : s.selected_list = some lf) (hp : s.selected_package_state = some pf)
    (hr : s.selected_removal = some rf) (hu : s.selected_user = some u)
    (hb : u.index < s.phone_packages.length) :
    s.filter_package_lists
      = some { s with filtered_packages := spec_filtered_view (s.phone_packages.getD u.index []) lf pf rf s.input_value } := by
  unfold ListState.filter_package_lists spec_filtered_view
  simp only [hl, hp, hr, hu]
  rw [if_pos hb]
  rw [enum_filter_map_fst (fun p => rowMatches lf pf rf s.input_value p) defRow]

/-! ### C1: filter conjunction -/

/-- C1: the recomputed filtered view contains exactly the indices of the
active user's rows satisfying the conjunction of the four predicates, in
original table order; with all three enum filters at `All` and an empty
search string it is the full index range of the active user's table. -/
theorem filter_conjunction (s : ListState) (lf : UadList) (pf : PackageState)
    (rf : Removal) (u : User)
    (hl : s.selected_list = some lf) (hp : s.selected_package_state = some pf)
    (hr : s.selected_removal = some rf) (hu : s.selected_user = some u)
    (hb : u.index < s.phone_packages.length) :
    ∃ s', s.filter_package_lists = some s' ∧
      s'.filtered_packages
        = spec_filtered_view (s.phone_packages.getD u.index []) lf pf rf s.input_value ∧
      (∀ i : Nat, i ∈ s'.filtered_packages ↔
        i < (s.phone_packages.getD u.index []).length ∧
          rowMatches lf pf rf s.input_value ((s.phone_packages.getD u.index []).getD i defRow)
            = true) ∧
      s'.filtered_packages.Pairwise (fun a b => a < b) ∧
      ((lf = UadList.All ∧ pf = PackageState.All ∧ rf = Removal.All ∧ s.input_value = "") →
        s'.filtered_packages = List.range (s.phone_packages.getD u.index []).length) := by
  refine ⟨_, filter_package_lists_spec s hl hp hr hu hb, rfl, ?_, ?_, ?_⟩
  · intro i
    simp [spec_filtered_view, List.mem_filter, List.mem_range]
  · exact (List.pairwise_lt_range _).sublist (List.filter_sublist _)
  · rintro ⟨rfl, rfl, rfl, hi⟩
    apply List.filter_eq_self.mpr
    intro j hj
    unfold rowMatches
    rw [hi]
    rfl

/-- Witness for C1 at the concrete state `sC1`. -/
theorem filter_conjunction_witness :
    ∃ s', sC1.filter_package_lists = some s' ∧
      s'.filtered_packages
        = spec_filtered_view (sC1.phone_packages.getD 0 []) UadList.All PackageState.All
            Removal.All sC1.input_value ∧
      (∀ i : Nat, i ∈ s'.filtered_packages ↔
        i < (sC1.phone_packages.getD 0 []).length ∧
          rowMatches UadList.All PackageState.All Removal.All sC1.input_value
            ((sC1.phone_packages.getD 0 []).getD i defRow) = true) ∧
      s'.filtered_packages.Pairwise (fun a b => a < b) ∧
      ((UadList.All = UadList.All ∧ PackageState.All = PackageState.All
          ∧ Removal.All = Removal.All ∧ sC1.input_value = "") →
        s'.filtered_packages = List.range (sC1.phone_packages.getD 0 []).length) :=
  filter_conjunction sC1 UadList.All PackageState.All Removal.All
    { id := 0, index := 0 } rfl rfl rfl rfl (by decide)

/-! ### C4: the state entered at ApplyFilters -/

/-- C4 counterexample: after `ApplyFilters` over the one-row table
`[[rowB]]` (a `Disabled`, `Advanced` row) the package-state filter is
`Enabled` and the removal filter is `Recommended` — not the `All`
sentinels — and the visible filtered view is empty, not the full index
range `[0]` of user 0's table. -/
theorem apply_filters_cex :
    (update ahNone cfg0 sC1 (Message.ApplyFilters [[rowB]])).map
        (fun x => (x.1.selected_package_state, x.1.selected_removal, x.1.selected_list,
          x.1.filtered_packages))
      = some (some PackageState.Enabled, some Removal.Recommended, some UadList.All, [])
    ∧ ([] : List Nat) ≠ List.range ([[rowB]].getD 0 []).length := by
  exact ⟨by decide, by decide⟩

/-- C4 as amended: `ApplyFilters` installs the new table, sets the list
filter to `All` but the package-state filter to `Enabled` and the removal
filter to `Recommended`, leaves the search string unchanged, makes user 0
active, enters `Ready`, and the initially visible view is the range-filter
of user 0's table by those defaults and the current search string. -/
theorem apply_filters_amended (ah : ActionHandler) (cfg : Settings) (s : ListState)
    (packages : List (List PackageRow))
    (hold : (s.selected_user.getD { id := 0, index := 0 }).index < packages.length)
    (h0 : 0 < packages.length) :
    ∃ s', update ah cfg s (Message.ApplyFilters packages) = some (s', [])
      ∧ s'.loading_state = LoadingState.Ready ""
      ∧ s'.phone_packages = packages
      ∧ s'.selected_list = some UadList.All
      ∧ s'.selected_package_state = some PackageState.Enabled
      ∧ s'.selected_removal = some Removal.Recommended
      ∧ s'.selected_user = some { id := 0, index := 0 }
      ∧ s'.input_value = s.input_value
      ∧ s'.selection = s.selection
      ∧ s'.filtered_packages
          = spec_filtered_view (packages.getD 0 []) UadList.All PackageState.Enabled
              Removal.Recommended s.input_value := by
  have hf := filter_package_lists_spec
    ({ s with
        phone_packages := packages,
        filtered_packages :=
          List.range (packages.getD (s.selected_user.getD { id := 0, index := 0 }).index []).length,
        selected_package_state := some PackageState.Enabled,
        selected_removal := some Removal.Recommended,
        selected_list := some UadList.All,
        selected_user := some { id := 0, index := 0 } })
    rfl rfl rfl rfl (by simpa using h0)
  simp only [update, activeIndex]
  unfold onApplyFilters
  rw [if_pos hold]
  simp only [hf]
  exact ⟨_, rfl, rfl, rfl, rfl, rfl, rfl, rfl, rfl, rfl, rfl⟩

/-- Witness for C4's amended theorem at the concrete state `sC1` and the
table `[[rowA, rowB]]`. -/
theorem apply_filters_amended_witness :
    ∃ s', update ahNone cfg0 sC1 (Message.ApplyFilters [[rowA, rowB]]) = some (s', [])
      ∧ s'.loading_state = LoadingState.Ready ""
      ∧ s'.phone_packages = [[rowA, rowB]]
      ∧ s'.selected_list = some UadList.All
      ∧ s'.selected_package_state = some PackageState.Enabled
      ∧ s'.selected_removal = some Removal.Recommended
      ∧ s'.selected_user = some { id := 0, index := 0 }
      ∧ s'.input_value = sC1.input_value
      ∧ s'.selection = sC1.selection
      ∧ s'.filtered_packages
          = spec_filtered_view ([[rowA, rowB]].getD 0 []) UadList.All PackageState.Enabled
              Removal.Recommended sC1.input_value :=
  apply_filters_amended ahNone cfg0 sC1 [[rowA, rowB]] (by decide) (by decide)

/-! ### C9: catalog load fallback and the DownloadingList to LoadingPackages step -/

/-- C9: a catalog-load attempt never surfaces a hard error: a successful
remote load yields the remote catalog with status `Done`, a failed one
yields the embedded/local fallback with status `Failed`, and in both cases
folding `LoadPhonePackages` with `init_apps_view`'s result moves the
controller to the `LoadingPackages` phase holding the returned catalog,
touching neither table nor selection. -/
theorem catalog_load_fallback (ah : ActionHandler) (cfg : Settings) (s : ListState)
    (list l : Catalog) (r : LoadListsResult) :
    init_apps_view (LoadListsResult.ok list) = (list, UadListState.Done)
    ∧ init_apps_view (LoadListsResult.err l) = (l, UadListState.Failed)
    ∧ ∃ s', update ah cfg s (Message.LoadPhonePackages (init_apps_view r)) = some (s', [])
        ∧ s'.loading_state = LoadingState.LoadingPackages ""
        ∧ s'.uad_lists = (init_apps_view r).1
        ∧ s'.phone_packages = s.phone_packages
        ∧ s'.selection = s.selection
        ∧ s'.filtered_packages = s.filtered_packages :=
  ⟨rfl, rfl, _, rfl, rfl, rfl, rfl, rfl, rfl⟩

/-! ### C8: stale command outcome after a catalog reload -/

/-- C8: a stale command outcome delivered after the table was replaced by a
reload is *not* discarded by the code: `ChangePackageState` indexes
`phone_packages[i_user][p.index]` unconditionally, so an index that was
valid before the reload but is out of range afterwards panics (modelled as
`none`). Starting from `sC1` (two rows), reloading to a one-row table and
then folding the stale outcome for index 1 crashes instead of being
dropped. -/
theorem stale_outcome_panics :
    runMsgs ahNone cfg0 sC1
      [Message.ApplyFilters [[rowA]],
       Message.ChangePackageState (CmdResult.ok (CommandType.PackageManager
         { i_user := none, index := 1, removal := "Recommended" }))]
      = none := by decide

/-! ### C5: folding a command outcome -/

/-- C5 counterexample: on a failed outcome the code does nothing at all —
the state (including the `Ready ""` loading text) is returned unchanged and
the filter engine is not re-run, although re-running it would have changed
`filtered_packages` (on `sC1` it computes `[0, 1]`, not `[]`). This refutes
both the claimed error marker and the claimed unconditional re-filter. -/
theorem change_state_error_cex :
    update ahNone cfg0 sC1 (Message.ChangePackageState CmdResult.error) = some (sC1, [])
    ∧ sC1.filter_package_lists ≠ some sC1
    ∧ sC1.loading_state = LoadingState.Ready "" := by
  exact ⟨rfl, by decide, rfl⟩

/-- `filter_package_lists` after a table/selection replacement. -/
theorem fpl_update2 (s : ListState) (pp1 : List (List PackageRow)) (sel : Selection)
    {lf : UadList} {pf : PackageState} {rf : Removal} {u : User}
    (hl : s.selected_list = some lf) (hp : s.selected_package_state = some pf)
    (hr : s.selected_removal = some rf) (hu : s.selected_user = some u)
    (hb : u.index < pp1.length) :
    ({ s with phone_packages := pp1, selection := sel } : ListState).filter_package_lists
      = some { s with
          phone_packages := pp1,
          selection := sel,
          filtered_packages := spec_filtered_view (pp1.getD u.index []) lf pf rf s.input_value } :=
  filter_package_lists_spec _ hl hp hr hu hb

/-- `filter_package_lists` after a user switch. -/
theorem fpl_update3 (s : ListState) (pp1 : List (List PackageRow)) (fp : List Nat) (user : User)
    {lf : UadList} {pf : PackageState} {rf : Removal}
    (hl : s.selected_list = some lf) (hp : s.selected_package_state = some pf)
    (hr : s.selected_removal = some rf)
    (hb : user.index < pp1.length) :
    ({ s with
        phone_packages := pp1,
        selected_user := some user,
        filtered_packages := fp } : ListState).filter_package_lists
      = some { s with
          phone_packages := pp1,
          selected_user := some user,
          filtered_packages := spec_filtered_view (pp1.getD user.index []) lf pf rf s.input_value } :=
  filter_package_lists_spec _ hl hp hr rfl hb

/-- C5 as amended: a failed outcome is ignored entirely — no package state,
selection, counter, loading-text or filtered-view mutation — while every
successful outcome, whether it mutates the active user's row or (with
`multi_user_mode` and a target-user override) the override user's row,
re-runs the filter engine for the active user over the mutated table; the
loading text is never touched in either case. -/
theorem change_state_amended (ah : ActionHandler) (cfg : Settings) (s : ListState)
    (p : PackageInfo) {lf : UadList} {pf : PackageState} {rf : Removal} {u : User}
    (hl : s.selected_list = some lf) (hp : s.selected_package_state = some pf)
    (hr : s.selected_removal = some rf) (hu : s.selected_user = some u)
    (hb : u.index < s.phone_packages.length)
    (hi : p.index < (s.phone_packages.getD u.index []).length)
    (htgt : ∀ iu, p.i_user = some iu → cfg.multi_user_mode = true →
      iu < s.phone_packages.length ∧ p.index < (s.phone_packages.getD iu []).length) :
    update ah cfg s (Message.ChangePackageState CmdResult.error) = some (s, [])
    ∧ ∃ s', update ah cfg s
          (Message.ChangePackageState (CmdResult.ok (CommandType.PackageManager p)))
        = some (s', [])
      ∧ s'.loading_state = s.loading_state
      ∧ s'.filtered_packages
          = spec_filtered_view (s'.phone_packages.getD u.index []) lf pf rf s.input_value := by
  have hcond : (decide (u.index < s.phone_packages.length)
      && decide (p.index < (s.phone_packages.getD u.index []).length)) = true := by
    rw [decide_eq_true hb, decide_eq_true hi]
    rfl
  have main : ∀ tgt : Nat, chgTable cfg s u.index p = some (chgTableSingle cfg s tgt p) →
      ∃ s', update ah cfg s
            (Message.ChangePackageState (CmdResult.ok (CommandType.PackageManager p)))
          = some (s', [])
        ∧ s'.loading_state = s.loading_state
        ∧ s'.filtered_packages
            = spec_filtered_view (s'.phone_packages.getD u.index []) lf pf rf s.input_value := by
    intro tgt hct
    have hb1 : u.index < (chgTableSingle cfg s tgt p).length := by
      unfold chgTableSingle
      rw [length_setRow]
      exact hb
    have hf := fpl_update2 s (chgTableSingle cfg s tgt p) (chgSel s u.index p) hl hp hr hu hb1
    have hrun : update ah cfg s
          (Message.ChangePackageState (CmdResult.ok (CommandType.PackageManager p)))
        = some ({ s with
            phone_packages := chgTableSingle cfg s tgt p,
            selection := chgSel s u.index p,
            filtered_packages := spec_filtered_view ((chgTableSingle cfg s tgt p).getD u.index [])
              lf pf rf s.input_value }, []) := by
      simp only [hu] at hf
      simp only [update, activeIndex, hu, Option.getD_some, onChangePackageState]
      rw [if_pos hcond, hct]
      simp only [hf]
      rfl
    exact ⟨_, hrun, rfl, rfl⟩
  refine ⟨rfl, ?_⟩
  cases hpiu : p.i_user with
  | none =>
      refine main u.index ?_
      unfold chgTable
      rw [hpiu]
  | some iu =>
      by_cases hmm : cfg.multi_user_mode = true
      · obtain ⟨h1, h2⟩ := htgt iu hpiu hmm
        have hct2 : (decide (iu < s.phone_packages.length)
            && decide (p.index < (s.phone_packages.getD iu []).length)) = true := by
          rw [decide_eq_true h1, decide_eq_true h2]
          rfl
        refine main iu ?_
        unfold chgTable
        rw [hpiu, hmm]
        simp only [hct2, if_true]
      · have hmm2 : cfg.multi_user_mode = false := by
          revert hmm
          cases cfg.multi_user_mode <;> simp
        refine main u.index ?_
        unfold chgTable
        rw [hpiu, hmm2]

/-- Witness for C5's amended theorem at the two-user state `sC10` with
`multi_user_mode` on and a successful outcome carrying the target-user
override `some 1`: the mirrored multi-user branch. -/
theorem change_state_amended_witness :
    update ahNone cfgM sC10 (Message.ChangePackageState CmdResult.error) = some (sC10, [])
    ∧ ∃ s', update ahNone cfgM sC10
          (Message.ChangePackageState (CmdResult.ok (CommandType.PackageManager
            { i_user := some 1, index := 0, removal := "Recommended" })))
        = some (s', [])
      ∧ s'.loading_state = sC10.loading_state
      ∧ s'.filtered_packages
          = spec_filtered_view (s'.phone_packages.getD 0 []) UadList.All PackageState.All
              Removal.All sC10.input_value :=
  change_state_amended ahNone cfgM sC10
    { i_user := some 1, index := 0, removal := "Recommended" }
    rfl rfl rfl rfl (by decide) (by decide)
    (by
      intro iu h hm2
      injection h with h1
      subst h1
      exact ⟨by decide, by decide⟩)

/-! ### C6: the Unsafe gate -/

/-- C6: toggling a row whose removal classification is `Unsafe` with
`expert_mode` off forces its `selected` flag to `false` and changes nothing
else — in particular the selection vector and all three counters are
untouched and no error is produced; with `expert_mode` on the toggle behaves
exactly like a normal single-package toggle (flag set to the toggle,
selection updated through `toggleSel`). -/
theorem unsafe_gate (ah : ActionHandler) (cfg : Settings) (s : ListState)
    (i_package : Nat) (t : Bool) {u : User} (hu : s.selected_user = some u)
    (hb : u.index < s.phone_packages.length)
    (hi : i_package < (s.phone_packages.getD u.index []).length)
    (hrmv : (getRow s.phone_packages u.index i_package).removal = Removal.Unsafe) :
    (cfg.expert_mode = false →
      update ah cfg s (Message.ListMsg i_package (RowMessage.ToggleSelection t))
        = some ({ s with
            phone_packages := setRow s.phone_packages u.index i_package
              { getRow s.phone_packages u.index i_package with selected := false } }, []))
    ∧ (cfg.expert_mode = true →
      update ah cfg s (Message.ListMsg i_package (RowMessage.ToggleSelection t))
        = some ({ s with
            phone_packages := setRow s.phone_packages u.index i_package
              { getRow s.phone_packages u.index i_package with selected := t },
            selection := toggleSel s u.index i_package t }, [])) := by
  have hcond : (decide (u.index < s.phone_packages.length)
      && decide (i_package < (s.phone_packages.getD u.index []).length)) = true := by
    rw [decide_eq_true hb, decide_eq_true hi]
    rfl
  constructor
  · intro hexp
    have hg : (decide ((getRow s.phone_packages u.index i_package).removal = Removal.Unsafe)
        && !cfg.expert_mode) = true := by
      rw [decide_eq_true hrmv, hexp]
      rfl
    simp only [update, activeIndex, hu, Option.getD_some]
    rw [if_pos hcond]
    simp only [onToggleSelection]
    rw [if_pos hg, hu]
  · intro hexp
    have hg : (decide ((getRow s.phone_packages u.index i_package).removal = Removal.Unsafe)
        && !cfg.expert_mode) = false := by
      rw [hexp]
      simp
    simp only [update, activeIndex, hu, Option.getD_some]
    rw [if_pos hcond]
    simp only [onToggleSelection]
    rw [hg]
    simp only [Bool.false_eq_true, if_false]
    rw [hu]

/-- Witness for C6 at `sC6` (expert mode off in `cfg0`). -/
theorem unsafe_gate_witness :
    (cfg0.expert_mode = false →
      update ahNone cfg0 sC6 (Message.ListMsg 0 (RowMessage.ToggleSelection true))
        = some ({ sC6 with
            phone_packages := setRow sC6.phone_packages 0 0
              { getRow sC6.phone_packages 0 0 with selected := false } }, []))
    ∧ (cfg0.expert_mode = true →
      update ahNone cfg0 sC6 (Message.ListMsg 0 (RowMessage.ToggleSelection true))
        = some ({ sC6 with
            phone_packages := setRow sC6.phone_packages 0 0
              { getRow sC6.phone_packages 0 0 with selected := true },
            selection := toggleSel sC6 0 0 true }, [])) :=
  unsafe_gate ahNone cfg0 sC6 0 true rfl (by decide) (by decide) (by decide)

/-! ### C3: only the first pair's outcome may mutate state -/

/-- Every element of `enumFrom k` for `k ≥ 1` has a nonzero index, so the
first-pair test fails on all of them. -/
theorem enumFrom_map_if0 {α β : Type _} (A B : β) :
    ∀ (l : List α) (k : Nat), 1 ≤ k →
      (l.enumFrom k).map (fun x => if x.1 = 0 then A else B) = List.replicate l.length B
  | [], k, _ => rfl
  | a :: rest, k, hk => by
      have ih := enumFrom_map_if0 A B rest (k + 1) (by omega)
      simp only [List.enumFrom_cons, List.map_cons, List.length_cons, List.replicate_succ]
      rw [if_neg (by omega), ih]

/-- Routing of the dispatched pairs' outcomes: the first pair's outcome goes
to `ChangePackageState`, every later pair's outcome collapses to
`Nothing`. -/
theorem planDispatches_map_onResult (ah : ActionHandler) (u : User) (pkg : PackageRow)
    (idx : Nat) (r : CmdResult) :
    (planDispatches ah u pkg idx).map (fun d => d.onResult r)
      = (match ah u pkg with
         | [] => ([] : List Message)
         | _ :: rest => Message.ChangePackageState r :: List.replicate rest.length Message.Nothing) := by
  unfold planDispatches
  rw [List.map_map]
  have hfun : ∀ x : Nat × (Option Nat × String),
      ((fun d : Dispatch => d.onResult r) ∘ (fun x : Nat × (Option Nat × String) =>
        ({ p_info := { i_user := x.2.1, index := idx, removal := pkg.removal.str },
           action := x.2.2,
           onResult := if x.1 = 0 then Message.ChangePackageState
                       else fun _ => Message.Nothing } : Dispatch))) x
        = if x.1 = 0 then Message.ChangePackageState r else Message.Nothing := by
    intro x
    simp only [Function.comp_apply]
    rw [apply_ite (fun f : CmdResult → Message => f r)]
  rw [List.map_congr_left (fun a _ => hfun a)]
  cases hah : ah u pkg with
  | nil => rfl
  | cons a rest =>
      have h : (a :: rest).enum = (0, a) :: rest.enumFrom 1 := rfl
      rw [h, List.map_cons, if_pos rfl, enumFrom_map_if0 _ _ rest 1 (by omega)]

/-- C3: dispatching a row action leaves the state untouched and produces one
dispatch per (user-override, command) pair, with only the first pair's
outcome routed to `ChangePackageState`; every later pair's outcome is mapped
to `Nothing`, and folding `Nothing` is a strict no-op on any state, so a
success or failure on any pair other than the first never mutates any table
row, the selection set, or the counters. -/
theorem mirrored_dispatch (ah : ActionHandler) (cfg : Settings) (s : ListState)
    (i_package : Nat) (r : CmdResult) (t : ListState) {u : User}
    (hu : s.selected_user = some u)
    (hb : u.index < s.phone_packages.length)
    (hi : i_package < (s.phone_packages.getD u.index []).length) :
    ∃ ds, update ah cfg s (Message.ListMsg i_package RowMessage.ActionPressed) = some (s, ds)
      ∧ ds.length = (ah u (getRow s.phone_packages u.index i_package)).length
      ∧ ds.map (fun d => d.onResult r)
          = (match ah u (getRow s.phone_packages u.index i_package) with
             | [] => ([] : List Message)
             | _ :: rest => Message.ChangePackageState r :: List.replicate rest.length Message.Nothing)
      ∧ update ah cfg t Message.Nothing = some (t, []) := by
  have hcond : (decide (u.index < s.phone_packages.length)
      && decide (i_package < (s.phone_packages.getD u.index []).length)) = true := by
    rw [decide_eq_true hb, decide_eq_true hi]
    rfl
  refine ⟨planDispatches ah u (getRow s.phone_packages u.index i_package) i_package,
    ?_, ?_, planDispatches_map_onResult ah u _ i_package r, rfl⟩
  · simp only [update, activeIndex, hu, Option.getD_some]
    rw [if_pos hcond]
    simp only [onActionPressed, hu]
  · simp [planDispatches]

/-- Witness for C3 at `sC1` with the three-pair plan `ah3`. -/
theorem mirrored_dispatch_witness :
    ∃ ds, update ah3 cfg0 sC1 (Message.ListMsg 0 RowMessage.ActionPressed) = some (sC1, ds)
      ∧ ds.length = (ah3 { id := 0, index := 0 } (getRow sC1.phone_packages 0 0)).length
      ∧ ds.map (fun d => d.onResult CmdResult.error)
          = (match ah3 { id := 0, index := 0 } (getRow sC1.phone_packages 0 0) with
             | [] => ([] : List Message)
             | _ :: rest => Message.ChangePackageState CmdResult.error
                 :: List.replicate rest.length Message.Nothing)
      ∧ update ah3 cfg0 sC1 Message.Nothing = some (sC1, []) :=
  mirrored_dispatch ah3 cfg0 sC1 0 CmdResult.error sC1 rfl (by decide) (by decide)

/-! ### C7: direction-consistency filtering of the bulk action -/

/-- Every dispatch planned for one package carries that package's index. -/
theorem mem_planDispatches_index {ah : ActionHandler} {u : User} {pkg : PackageRow}
    {idx : Nat} {d : Dispatch} (hd : d ∈ planDispatches ah u pkg idx) :
    d.p_info.index = idx := by
  unfold planDispatches at hd
  rcases List.mem_map.mp hd with ⟨x, _, rfl⟩
  rfl

/-- C7: the bulk action never fails and never mutates the state; it
dispatches exactly the plans of the selected indices whose current state is
consistent with the direction (`Remove` needs `Enabled`, `Restore` needs
non-`Enabled`), every dispatch belongs to a consistent selected index, and a
direction-inconsistent selected index contributes no dispatch at all. -/
theorem bulk_direction_filter (ah : ActionHandler) (cfg : Settings) (s : ListState)
    (a : UadAction) {u : User} (hu : s.selected_user = some u)
    (hb : u.index < s.phone_packages.length)
    (hall : ∀ i ∈ s.selection.selected_packages,
      i < (s.phone_packages.getD u.index []).length) :
    ∃ ds, update ah cfg s (Message.ApplyActionOnSelection a) = some (s, ds)
      ∧ ds = (s.selection.selected_packages.filter
            (fun i => consistentB a ((s.phone_packages.getD u.index []).getD i defRow).state)).bind
          (fun i => planDispatches ah u ((s.phone_packages.getD u.index []).getD i defRow) i)
      ∧ (∀ d ∈ ds, d.p_info.index ∈ s.selection.selected_packages
          ∧ consistentB a ((s.phone_packages.getD u.index []).getD d.p_info.index defRow).state
              = true)
      ∧ (∀ i ∈ s.selection.selected_packages,
          consistentB a ((s.phone_packages.getD u.index []).getD i defRow).state = false →
            ∀ d ∈ ds, d.p_info.index ≠ i) := by
  have hallb : s.selection.selected_packages.all
      (fun i => decide (u.index < s.phone_packages.length)
        && decide (i < (s.phone_packages.getD u.index []).length)) = true := by
    rw [List.all_eq_true]
    intro i hi
    rw [decide_eq_true hb, decide_eq_true (hall i hi)]
    rfl
  refine ⟨(s.selection.selected_packages.filter
      (fun i => consistentB a ((s.phone_packages.getD u.index []).getD i defRow).state)).bind
    (fun i => planDispatches ah u ((s.phone_packages.getD u.index []).getD i defRow) i),
    ?_, rfl, ?_, ?_⟩
  · simp only [update, activeIndex, hu, Option.getD_some, onApplySelection]
    rw [if_pos hallb]
    cases hsurv : s.selection.selected_packages.filter
        (fun i => consistentB a ((s.phone_packages.getD u.index []).getD i defRow).state) with
    | nil => rfl
    | cons x xs => rfl
  · intro d hd
    rcases List.mem_bind.mp hd with ⟨i, hif, hdp⟩
    rcases List.mem_filter.mp hif with ⟨himem, hcons⟩
    rw [mem_planDispatches_index hdp]
    exact ⟨himem, hcons⟩
  · intro i _ hfalse d hd
    rcases List.mem_bind.mp hd with ⟨j, hjf, hdp⟩
    rcases List.mem_filter.mp hjf with ⟨_, hconsj⟩
    rw [mem_planDispatches_index hdp]
    intro hji
    rw [hji] at hconsj
    rw [hconsj] at hfalse
    simp at hfalse

/-- Witness for C7 at `sC7` with direction `Remove` (only the `Enabled` row
0 may proceed). -/
theorem bulk_direction_filter_witness :
    ∃ ds, update ah3 cfg0 sC7 (Message.ApplyActionOnSelection UadAction.Remove) = some (sC7, ds)
      ∧ ds = (sC7.selection.selected_packages.filter
            (fun i => consistentB UadAction.Remove
              ((sC7.phone_packages.getD 0 []).getD i defRow).state)).bind
          (fun i => planDispatches ah3 { id := 0, index := 0 }
            ((sC7.phone_packages.getD 0 []).getD i defRow) i)
      ∧ (∀ d ∈ ds, d.p_info.index ∈ sC7.selection.selected_packages
          ∧ consistentB UadAction.Remove
              ((sC7.phone_packages.getD 0 []).getD d.p_info.index defRow).state = true)
      ∧ (∀ i ∈ sC7.selection.selected_packages,
          consistentB UadAction.Remove
              ((sC7.phone_packages.getD 0 []).getD i defRow).state = false →
            ∀ d ∈ ds, d.p_info.index ≠ i) :=
  bulk_direction_filter ah3 cfg0 sC7 UadAction.Remove rfl (by decide)
    (by decide)

/-! ### C10: switching the active user -/

/-- `getD` through `map`. -/
theorem getD_map {α β : Type _} (f : α → β) (d : β) (d' : α) :
    ∀ (l : List α) (j : Nat), j < l.length → (l.map f).getD j d = f (l.getD j d')
  | a :: l, 0, _ => rfl
  | a :: l, j + 1, h => getD_map f d d' l j (Nat.lt_of_succ_lt_succ h)

/-- Rows after the clear-old-user loop. -/
theorem getRow_clearedOldUser (s : ListState) (i_user v j : Nat) :
    getRow (clearedOldUser s i_user) v j
      = if v = i_user ∧ i_user < s.phone_packages.length
            ∧ j < (s.phone_packages.getD i_user []).length
        then { getRow s.phone_packages i_user j with selected := false }
        else getRow s.phone_packages v j := by
  unfold clearedOldUser getRow
  rw [getD_set]
  by_cases h1 : i_user = v
  · subst h1
    by_cases h2 : i_user < s.phone_packages.length
    · rw [if_pos ⟨rfl, h2⟩]
      by_cases h3 : j < (s.phone_packages.getD i_user []).length
      · rw [if_pos ⟨rfl, h2, h3⟩]
        exact getD_map _ _ _ _ _ h3
      · rw [if_neg (by tauto)]
        rw [List.getD_eq_default, List.getD_eq_default]
        · exact Nat.le_of_not_lt h3
        · simpa using Nat.le_of_not_lt h3
    · rw [if_neg (by tauto), if_neg (by tauto)]
  · rw [if_neg (by tauto), if_neg (by tauto)]

/-- The clear loop does not change the outer length. -/
theorem length_clearedOldUser (s : ListState) (i_user : Nat) :
    (clearedOldUser s i_user).length = s.phone_packages.length := by
  simp [clearedOldUser]

/-- The clear loop does not change any row count. -/
theorem rowlen_clearedOldUser (s : ListState) (i_user v : Nat) :
    ((clearedOldUser s i_user).getD v []).length = (s.phone_packages.getD v []).length := by
  unfold clearedOldUser
  rw [getD_set]
  by_cases h : i_user = v ∧ v < s.phone_packages.length
  · rw [if_pos h, List.length_map, h.1]
  · rw [if_neg h]

/-- Rows after the set-selected loop over the selection indices: exactly the
new user's rows at selection indices gain `selected := true`. -/
theorem getRow_foldl_setTrue (user_index : Nat) :
    ∀ (sel : List Nat) (pp : List (List PackageRow)) (v j : Nat),
      getRow (sel.foldl (fun pp i => setRow pp user_index i
          { getRow pp user_index i with selected := true }) pp) v j
        = if v = user_index ∧ j ∈ sel ∧ user_index < pp.length
              ∧ j < (pp.getD user_index []).length
          then { getRow pp v j with selected := true }
          else getRow pp v j
  | [], pp, v, j => by simp
  | i :: rest, pp, v, j => by
      have ih := getRow_foldl_setTrue user_index rest
        (setRow pp user_index i { getRow pp user_index i with selected := true }) v j
      simp only [List.foldl_cons]
      rw [ih, length_setRow, getD_setRow_len, getRow_setRow]
      simp only [List.mem_cons]
      by_cases hv : v = user_index
      · subst hv
        by_cases hu2 : v < pp.length
        · by_cases hj2 : j < (pp.getD v []).length
          · by_cases hji : j = i
            · subst hji
              have hB : v = v ∧ j = j ∧ v < pp.length ∧ j < (pp.getD v []).length :=
                ⟨rfl, rfl, hu2, hj2⟩
              by_cases hm : j ∈ rest
              · rw [if_pos ⟨rfl, hm, hu2, hj2⟩, if_pos hB, if_pos ⟨rfl, Or.inl rfl, hu2, hj2⟩]
              · rw [if_neg (fun h => hm h.2.1), if_pos hB, if_pos ⟨rfl, Or.inl rfl, hu2, hj2⟩]
            · have hnB : ¬ (v = v ∧ i = j ∧ v < pp.length
                  ∧ i < (pp.getD v []).length) := fun h => hji h.2.1.symm
              by_cases hm : j ∈ rest
              · rw [if_pos ⟨rfl, hm, hu2, hj2⟩, if_neg hnB,
                  if_pos ⟨rfl, Or.inr hm, hu2, hj2⟩]
              · rw [if_neg (fun h => hm h.2.1), if_neg hnB,
                  if_neg (fun h => (h.2.1.elim (fun he => hji he) hm))]
          · have hnB : ¬ (v = v ∧ i = j ∧ v < pp.length
                ∧ i < (pp.getD v []).length) := by
              rintro ⟨-, rfl, -, h⟩
              exact hj2 h
            rw [if_neg (fun h => hj2 h.2.2.2), if_neg hnB,
              if_neg (fun h => hj2 h.2.2.2)]
        · rw [if_neg (fun h => hu2 h.2.2.1), if_neg (fun h => hu2 h.2.2.1),
            if_neg (fun h => hu2 h.2.2.1)]
      · rw [if_neg (fun h => hv h.1), if_neg (fun h => hv h.1.symm),
          if_neg (fun h => hv h.1)]

/-- The set-selected loop does not change the outer length. -/
theorem length_foldl_setTrue (user_index : Nat) :
    ∀ (sel : List Nat) (pp : List (List PackageRow)),
      (sel.foldl (fun pp i => setRow pp user_index i
          { getRow pp user_index i with selected := true }) pp).length = pp.length
  | [], _ => rfl
  | i :: rest, pp => by
      simp only [List.foldl_cons]
      rw [length_foldl_setTrue user_index rest, length_setRow]

/-- The set-selected loop does not change any row count. -/
theorem rowlen_foldl_setTrue (user_index : Nat) :
    ∀ (sel : List Nat) (pp : List (List PackageRow)) (v : Nat),
      ((sel.foldl (fun pp i => setRow pp user_index i
          { getRow pp user_index i with selected := true }) pp).getD v []).length
        = ((pp.getD v []).length)
  | [], _, _ => rfl
  | i :: rest, pp, v => by
      simp only [List.foldl_cons]
      rw [rowlen_foldl_setTrue user_index rest, getD_setRow_len]

/-- `userSelTable` keeps the outer length. -/
theorem length_userSelTable (s : ListState) (i_user : Nat) (user : User) :
    (userSelTable s i_user user).length = s.phone_packages.length := by
  unfold userSelTable
  rw [length_foldl_setTrue, length_clearedOldUser]

/-- `userSelTable` keeps every row count. -/
theorem rowlen_userSelTable (s : ListState) (i_user : Nat) (user : User) (v : Nat) :
    ((userSelTable s i_user user).getD v []).length
      = (s.phone_packages.getD v []).length := by
  unfold userSelTable
  rw [rowlen_foldl_setTrue, rowlen_clearedOldUser]

/-- C10: switching the active user leaves the selection vector and all three
counters untouched; it clears the `selected` flag on every row of the
previously active user, sets the flag on the new user's row at every index
of the selection set, never changes any row's state, and recomputes the
filtered view against the new user's table — the selection indices are
reinterpreted, not cleared. -/
theorem user_switch (ah : ActionHandler) (cfg : Settings) (s : ListState) (user : User)
    {lf : UadList} {pf : PackageState} {rf : Removal} {u : User}
    (hl : s.selected_list = some lf) (hp : s.selected_package_state = some pf)
    (hr : s.selected_removal = some rf) (hu : s.selected_user = some u)
    (hb : u.index < s.phone_packages.length)
    (hbn : user.index < s.phone_packages.length)
    (hall : ∀ i ∈ s.selection.selected_packages,
      i < (s.phone_packages.getD user.index []).length) :
    ∃ s', update ah cfg s (Message.UserSelected user) = some (s', [])
      ∧ s'.selection = s.selection
      ∧ s'.selected_user = some user
      ∧ s'.phone_packages = userSelTable s u.index user
      ∧ (∀ i ∈ s.selection.selected_packages,
          (getRow s'.phone_packages user.index i).selected = true)
      ∧ (∀ j, j < (s.phone_packages.getD u.index []).length →
          (u.index ≠ user.index ∨ j ∉ s.selection.selected_packages) →
          (getRow s'.phone_packages u.index j).selected = false)
      ∧ (∀ v j, (getRow s'.phone_packages v j).state
          = (getRow s.phone_packages v j).state)
      ∧ s'.filtered_packages
          = spec_filtered_view ((userSelTable s u.index user).getD user.index []) lf pf rf
              s.input_value := by
  have hclen : user.index < (clearedOldUser s u.index).length := by
    rw [length_clearedOldUser]
    exact hbn
  have hrowall : ∀ i ∈ s.selection.selected_packages,
      i < ((clearedOldUser s u.index).getD user.index []).length := by
    intro i hi
    rw [rowlen_clearedOldUser]
    exact hall i hi
  have hcond : (decide (user.index < (clearedOldUser s u.index).length)
      && s.selection.selected_packages.all
        (fun i => decide (i < ((clearedOldUser s u.index).getD user.index []).length)))
      = true := by
    rw [decide_eq_true hclen]
    have : s.selection.selected_packages.all
        (fun i => decide (i < ((clearedOldUser s u.index).getD user.index []).length))
        = true := by
      rw [List.all_eq_true]
      intro i hi
      exact decide_eq_true (hrowall i hi)
    rw [this]
    rfl
  have hbUS : user.index < (userSelTable s u.index user).length := by
    rw [length_userSelTable]
    exact hbn
  have hf := fpl_update3 s (userSelTable s u.index user)
    (List.range ((userSelTable s u.index user).getD user.index []).length) user hl hp hr hbUS
  have hbase : ∀ v j, (getRow (clearedOldUser s u.index) v j).state
      = (getRow s.phone_packages v j).state := by
    intro v j
    rw [getRow_clearedOldUser]
    split
    · next h => rw [h.1]
    · rfl
  refine ⟨{ s with
      phone_packages := userSelTable s u.index user,
      selected_user := some user,
      filtered_packages := spec_filtered_view ((userSelTable s u.index user).getD user.index [])
        lf pf rf s.input_value }, ?_, rfl, rfl, rfl, ?_, ?_, ?_, rfl⟩
  · simp only [update, activeIndex, hu, Option.getD_some, onUserSelected]
    rw [if_pos hb, if_pos hcond, hf]
    rfl
  · intro i hi
    show (getRow (userSelTable s u.index user) user.index i).selected = true
    unfold userSelTable
    rw [getRow_foldl_setTrue, if_pos ⟨rfl, hi, hclen, hrowall i hi⟩]
  · intro j hjlen hcase
    show (getRow (userSelTable s u.index user) u.index j).selected = false
    unfold userSelTable
    rw [getRow_foldl_setTrue, if_neg ?hneg, getRow_clearedOldUser,
      if_pos ⟨rfl, hb, hjlen⟩]
    case hneg =>
      rintro ⟨h1, h2, -, -⟩
      rcases hcase with hne | hnm
      · exact hne h1
      · exact hnm h2
  · intro v j
    show (getRow (userSelTable s u.index user) v j).state
      = (getRow s.phone_packages v j).state
    unfold userSelTable
    rw [getRow_foldl_setTrue]
    split
    · exact hbase v j
    · exact hbase v j

/-- Witness for C10: switching `sC10` from user 0 to user 1. -/
theorem user_switch_witness :
    ∃ s', update ahNone cfg0 sC10 (Message.UserSelected { id := 10, index := 1 })
        = some (s', [])
      ∧ s'.selection = sC10.selection
      ∧ s'.selected_user = some { id := 10, index := 1 }
      ∧ s'.phone_packages = userSelTable sC10 0 { id := 10, index := 1 }
      ∧ (∀ i ∈ sC10.selection.selected_packages,
          (getRow s'.phone_packages 1 i).selected = true)
      ∧ (∀ j, j < (sC10.phone_packages.getD 0 []).length →
          ((0 : Nat) ≠ 1 ∨ j ∉ sC10.selection.selected_packages) →
          (getRow s'.phone_packages 0 j).selected = false)
      ∧ (∀ v j, (getRow s'.phone_packages v j).state
          = (getRow sC10.phone_packages v j).state)
      ∧ s'.filtered_packages
          = spec_filtered_view ((userSelTable sC10 0 { id := 10, index := 1 }).getD 1 [])
              UadList.All PackageState.All Removal.All sC10.input_value :=
  user_switch ahNone cfg0 sC10 { id := 10, index := 1 } rfl rfl rfl rfl
    (by decide) (by decide) (by decide)

/-! ### C2: selection/counter consistency -/

/-- The three counter projections of `update_selection_count`. -/
theorem usc_enabled (sel : Selection) (st : PackageState) (add : Bool) :
    (update_selection_count sel st add).enabled
      = if st = PackageState.Enabled then
          (if add then sel.enabled + 1 else sel.enabled - 1)
        else sel.enabled := by
  cases st <;> simp [update_selection_count]

/-- Disabled-counter projection of `update_selection_count`. -/
theorem usc_disabled (sel : Selection) (st : PackageState) (add : Bool) :
    (update_selection_count sel st add).disabled
      = if st = PackageState.Disabled then
          (if add then sel.disabled + 1 else sel.disabled - 1)
        else sel.disabled := by
  cases st <;> simp [update_selection_count]

/-- Uninstalled-counter projection of `update_selection_count`. -/
theorem usc_uninstalled (sel : Selection) (st : PackageState) (add : Bool) :
    (update_selection_count sel st add).uninstalled
      = if st = PackageState.Uninstalled then
          (if add then sel.uninstalled + 1 else sel.uninstalled - 1)
        else sel.uninstalled := by
  cases st <;> simp [update_selection_count]

/-- `update_selection_count` never touches the selection vector. -/
theorem usc_selected_packages (sel : Selection) (st : PackageState) (add : Bool) :
    (update_selection_count sel st add).selected_packages = sel.selected_packages := by
  cases st <;> rfl

/-- Setting a row whose state is unchanged does not change any state-based
count over the selection. -/
theorem countP_state_setRow (pp : List (List PackageRow)) (u i v : Nat) (r : PackageRow)
    (hr : r.state = (getRow pp u i).state) (sel : List Nat) (st : PackageState) :
    (sel.countP (fun k => decide ((getRow (setRow pp u i r) v k).state = st)))
      = sel.countP (fun k => decide ((getRow pp v k).state = st)) := by
  apply List.countP_congr
  intro k _
  rw [state_getRow_setRow pp u i v k r hr]

/-- Appending one index adds its state's indicator to every count. -/
theorem countP_append_single (sel : List Nat) (i : Nat) (p : Nat → Bool) :
    (sel ++ [i]).countP p = sel.countP p + (if p i then 1 else 0) := by
  rw [List.countP_append]
  simp [List.countP_cons]

/-- Removing one index (present, no duplicates) subtracts its indicator. -/
theorem countP_filter_remove (p : Nat → Bool) :
    ∀ (sel : List Nat), sel.Nodup → ∀ i ∈ sel,
      sel.countP p = (sel.filter (fun x => decide (x ≠ i))).countP p + (if p i then 1 else 0)
  | [], _, i, hi => absurd hi (List.not_mem_nil i)
  | a :: rest, hnd, i, hi => by
      have hnda := (List.nodup_cons.mp hnd).1
      have hndr := (List.nodup_cons.mp hnd).2
      rcases List.mem_cons.mp hi with rfl | hir
      · have hfr : rest.filter (fun x => decide (x ≠ i)) = rest := by
          apply List.filter_eq_self.mpr
          intro b hb
          exact decide_eq_true (fun hbi => hnda (hbi ▸ hb))
        rw [List.filter_cons, if_neg (by simp), hfr, List.countP_cons]
      · have ih := countP_filter_remove p rest hndr i hir
        have hai : ¬ a = i := fun h => hnda (h ▸ hir)
        rw [List.filter_cons, if_pos (by simpa using decide_eq_true hai),
          List.countP_cons, List.countP_cons, ih]
        omega

/-- Setting a row (state unchanged) with the selection untouched keeps the
invariant. -/
theorem PInv_setflag (iu : Nat) (pp : List (List PackageRow)) (sel : Selection)
    (i : Nat) (r : PackageRow) (hr : r.state = (getRow pp iu i).state)
    (hinv : PInv iu pp sel) : PInv iu (setRow pp iu i r) sel := by
  obtain ⟨he, hd, hu2, hnd⟩ := hinv
  refine ⟨?_, ?_, ?_, hnd⟩
  · rw [countP_state_setRow pp iu i iu r hr]
    exact he
  · rw [countP_state_setRow pp iu i iu r hr]
    exact hd
  · rw [countP_state_setRow pp iu i iu r hr]
    exact hu2

/-- Adding a fresh index and incrementing the counter of the row's current
state keeps the invariant. -/
theorem PInv_add (iu : Nat) (pp : List (List PackageRow)) (sel : Selection) (i : Nat)
    (r : PackageRow) (hr : r.state = (getRow pp iu i).state)
    (hinv : PInv iu pp sel) (hni : i ∉ sel.selected_packages) (newsel : Selection)
    (hen : newsel.enabled = (if (getRow pp iu i).state = PackageState.Enabled
        then sel.enabled + 1 else sel.enabled))
    (hdi : newsel.disabled = (if (getRow pp iu i).state = PackageState.Disabled
        then sel.disabled + 1 else sel.disabled))
    (hun : newsel.uninstalled = (if (getRow pp iu i).state = PackageState.Uninstalled
        then sel.uninstalled + 1 else sel.uninstalled))
    (hsp : newsel.selected_packages = sel.selected_packages ++ [i]) :
    PInv iu (setRow pp iu i r) newsel := by
  obtain ⟨he, hd, hu2, hnd⟩ := hinv
  refine ⟨?_, ?_, ?_, ?_⟩
  · rw [hen, hsp, countP_state_setRow pp iu i iu r hr, countP_append_single, ← he]
    by_cases hst : (getRow pp iu i).state = PackageState.Enabled <;> simp [hst]
  · rw [hdi, hsp, countP_state_setRow pp iu i iu r hr, countP_append_single, ← hd]
    by_cases hst : (getRow pp iu i).state = PackageState.Disabled <;> simp [hst]
  · rw [hun, hsp, countP_state_setRow pp iu i iu r hr, countP_append_single, ← hu2]
    by_cases hst : (getRow pp iu i).state = PackageState.Uninstalled <;> simp [hst]
  · rw [hsp]
    simp [List.nodup_append, hnd, hni]

/-- Draining a present index (no duplicates) and decrementing the counter of
the row's current state keeps the invariant. -/
theorem PInv_remove (iu : Nat) (pp : List (List PackageRow)) (sel : Selection) (i : Nat)
    (r : PackageRow) (hr : r.state = (getRow pp iu i).state)
    (hinv : PInv iu pp sel) (hmem : i ∈ sel.selected_packages) (newsel : Selection)
    (hen : newsel.enabled = (if (getRow pp iu i).state = PackageState.Enabled
        then sel.enabled - 1 else sel.enabled))
    (hdi : newsel.disabled = (if (getRow pp iu i).state = PackageState.Disabled
        then sel.disabled - 1 else sel.disabled))
    (hun : newsel.uninstalled = (if (getRow pp iu i).state = PackageState.Uninstalled
        then sel.uninstalled - 1 else sel.uninstalled))
    (hsp : newsel.selected_packages
        = sel.selected_packages.filter (fun x => decide (x ≠ i))) :
    PInv iu (setRow pp iu i r) newsel := by
  obtain ⟨he, hd, hu2, hnd⟩ := hinv
  refine ⟨?_, ?_, ?_, ?_⟩
  · have hrem := countP_filter_remove
      (fun k => decide ((getRow pp iu k).state = PackageState.Enabled))
      sel.selected_packages hnd i hmem
    rw [hen, hsp, countP_state_setRow pp iu i iu r hr]
    by_cases hst : (getRow pp iu i).state = PackageState.Enabled
    · rw [if_pos hst]
      simp only [hst, eq_self_iff_true, decide_True, if_true] at hrem
      omega
    · rw [if_neg hst]
      have hfalse : decide ((getRow pp iu i).state = PackageState.Enabled) = false := by
        simp [hst]
      simp only [hfalse, Bool.false_eq_true, if_false] at hrem
      omega
  · have hrem := countP_filter_remove
      (fun k => decide ((getRow pp iu k).state = PackageState.Disabled))
      sel.selected_packages hnd i hmem
    rw [hdi, hsp, countP_state_setRow pp iu i iu r hr]
    by_cases hst : (getRow pp iu i).state = PackageState.Disabled
    · rw [if_pos hst]
      simp only [hst, eq_self_iff_true, decide_True, if_true] at hrem
      omega
    · rw [if_neg hst]
      have hfalse : decide ((getRow pp iu i).state = PackageState.Disabled) = false := by
        simp [hst]
      simp only [hfalse, Bool.false_eq_true, if_false] at hrem
      omega
  · have hrem := countP_filter_remove
      (fun k => decide ((getRow pp iu k).state = PackageState.Uninstalled))
      sel.selected_packages hnd i hmem
    rw [hun, hsp, countP_state_setRow pp iu i iu r hr]
    by_cases hst : (getRow pp iu i).state = PackageState.Uninstalled
    · rw [if_pos hst]
      simp only [hst, eq_self_iff_true, decide_True, if_true] at hrem
      omega
    · rw [if_neg hst]
      have hfalse : decide ((getRow pp iu i).state = PackageState.Uninstalled) = false := by
        simp [hst]
      simp only [hfalse, Bool.false_eq_true, if_false] at hrem
      omega
  · rw [hsp]
    exact hnd.filter _

/-- An invariant preserved by every step of an `Option`-valued fold is
preserved by the whole fold. -/
theorem foldlM_option_inv {α β : Type _} (f : β → α → Option β) (P : β → Prop)
    (hf : ∀ b a b', f b a = some b' → P b → P b') :
    ∀ (l : List α) (b b' : β), l.foldlM f b = some b' → P b → P b'
  | [], b, b', h, hb => by
      rw [List.foldlM_nil] at h
      rw [show (pure b : Option β) = some b from rfl, Option.some.injEq] at h
      rw [← h]
      exact hb
  | a :: l, b, b', h, hb => by
      rw [List.foldlM_cons] at h
      cases hfa : f b a with
      | none =>
          rw [hfa] at h
          simp at h
      | some b1 =>
          rw [hfa] at h
          have h' : l.foldlM f b1 = some b' := by simpa using h
          exact foldlM_option_inv f P hf l b1 b' h' (hf b a b1 hfa hb)

/-- One iteration of the bulk-toggle loop preserves the invariant: its
membership guards make every counter update a genuine membership
transition. -/
theorem toggleAllStep_preserves (iu : Nat) (b : Bool)
    (acc acc' : List (List PackageRow) × Selection) (i : Nat)
    (h : toggleAllStep iu b acc i = some acc')
    (hinv : PInv iu acc.1 acc.2) : PInv iu acc'.1 acc'.2 := by
  unfold toggleAllStep at h
  split at h
  · cases b with
    | true =>
        rw [if_pos rfl] at h
        by_cases hc : acc.2.selected_packages.contains i = true
        · rw [if_pos hc] at h
          rw [Option.some.injEq] at h
          subst h
          exact PInv_setflag iu acc.1 acc.2 i
            { getRow acc.1 iu i with selected := true } rfl hinv
        · rw [if_neg hc] at h
          rw [Option.some.injEq] at h
          subst h
          apply PInv_add iu acc.1 acc.2 i
            { getRow acc.1 iu i with selected := true } rfl hinv
            (fun hm => hc (List.elem_iff.mpr hm))
          · simp [usc_enabled]
          · simp [usc_disabled]
          · simp [usc_uninstalled]
          · simp [usc_selected_packages]
    | false =>
        rw [if_neg Bool.false_ne_true] at h
        by_cases hc : acc.2.selected_packages.contains i = true
        · rw [if_pos hc] at h
          rw [Option.some.injEq] at h
          subst h
          apply PInv_remove iu acc.1 acc.2 i
            { getRow acc.1 iu i with selected := false } rfl hinv (List.elem_iff.mp hc)
          · simp [usc_enabled]
          · simp [usc_disabled]
          · simp [usc_uninstalled]
          · simp [usc_selected_packages]
        · rw [if_neg hc] at h
          rw [Option.some.injEq] at h
          subst h
          exact PInv_setflag iu acc.1 acc.2 i
            { getRow acc.1 iu i with selected := false } rfl hinv
  · simp at h

/-- One `goodToggle` step of `update` preserves the selection/counter
invariant. -/
theorem goodStep_preserves (ah : ActionHandler) (cfg : Settings) {s s1 : ListState}
    {m : Message} {ds : List Dispatch} (hg : goodToggle cfg s m)
    (hup : update ah cfg s m = some (s1, ds)) (hinv : SelCounterInv s) :
    SelCounterInv s1 := by
  cases m with
  | ToggleAllSelected b =>
      simp only [update, onToggleAll] at hup
      split at hup
      · next pp sel heq =>
          rw [Option.some.injEq, Prod.mk.injEq] at hup
          obtain ⟨h1, -⟩ := hup
          subst h1
          exact foldlM_option_inv _ (fun acc => PInv (activeIndex s) acc.1 acc.2)
            (fun b2 a b' hf hP => toggleAllStep_preserves _ _ _ _ _ hf hP)
            s.filtered_packages (s.phone_packages, s.selection) (pp, sel) heq hinv
      · simp at hup
  | ListMsg i rm =>
      cases rm with
      | ToggleSelection t =>
          simp only [update] at hup
          split at hup
          · simp only [onToggleSelection] at hup
            split at hup
            · rw [Option.some.injEq, Prod.mk.injEq] at hup
              obtain ⟨h1, -⟩ := hup
              subst h1
              exact PInv_setflag (activeIndex s) s.phone_packages s.selection i
                { getRow s.phone_packages (activeIndex s) i with selected := false } rfl hinv
            · next hgate =>
              rw [Option.some.injEq, Prod.mk.injEq] at hup
              obtain ⟨h1, -⟩ := hup
              subst h1
              rcases hg with ⟨hrm, hexp⟩ | ⟨ht, hni⟩ | ⟨ht, hmem⟩
              · exact absurd (by rw [decide_eq_true hrm, hexp]; rfl) hgate
              · subst ht
                apply PInv_add (activeIndex s) s.phone_packages s.selection i
                  { getRow s.phone_packages (activeIndex s) i with selected := true } rfl
                  hinv hni
                · simp [toggleSel, usc_enabled]
                · simp [toggleSel, usc_disabled]
                · simp [toggleSel, usc_uninstalled]
                · simp [toggleSel, usc_selected_packages]
              · subst ht
                apply PInv_remove (activeIndex s) s.phone_packages s.selection i
                  { getRow s.phone_packages (activeIndex s) i with selected := false } rfl
                  hinv hmem
                · simp [toggleSel, usc_enabled]
                · simp [toggleSel, usc_disabled]
                · simp [toggleSel, usc_uninstalled]
                · simp [toggleSel, usc_selected_packages]
          · simp at hup
      | ActionPressed => exact hg.elim
      | PackagePressed => exact hg.elim
  | LoadUadList r => exact hg.elim
  | LoadPhonePackages lb => exact hg.elim
  | RestoringDevice r => exact hg.elim
  | ApplyFilters p => exact hg.elim
  | SearchInputChanged l => exact hg.elim
  | ListSelected l => exact hg.elim
  | UserSelected u => exact hg.elim
  | PackageStateSelected p => exact hg.elim
  | RemovalSelected r => exact hg.elim
  | ApplyActionOnSelection a => exact hg.elim
  | ChangePackageState r => exact hg.elim
  | Nothing => exact hg.elim

/-- C2 counterexample: from `sC1` (empty selection, row 0 `Enabled`),
sending `ToggleSelection true` twice and then `ToggleSelection false` — all
accepted without error by the code — leaves the enabled counter at 1 with an
empty selection vector, so the counters do not equal the counts obtained by
grouping the selection by current state: `ToggleSelection` has no membership
guard, pushes a duplicate index, and `drain_filter` removes both copies
while the counter is decremented only once. -/
theorem selection_counter_cex :
    (runMsgs ahNone cfg0 sC1
        [Message.ListMsg 0 (RowMessage.ToggleSelection true),
         Message.ListMsg 0 (RowMessage.ToggleSelection true),
         Message.ListMsg 0 (RowMessage.ToggleSelection false)]).map counters_consistent
      = some false := by decide

/-- C2 as amended: after any sequence of bulk toggles and of single-package
toggles in which every single toggle that passes the Unsafe gate genuinely
changes membership (select of a non-member, deselect of a member), the three
running counters equal the counts obtained by grouping the selection vector
by each package's current state, and the selection vector stays
duplicate-free; in particular this holds starting from the empty
selection. -/
theorem selection_counter_consistency (ah : ActionHandler) (cfg : Settings)
    {s : ListState} {msgs : List Message} {s' : ListState}
    (hrun : GoodRun ah cfg s msgs s') (hinv : SelCounterInv s) : SelCounterInv s' := by
  induction hrun with
  | nil => exact hinv
  | cons hg hup _ ih => exact ih (goodStep_preserves _ _ hg hup hinv)

/-- Witness for C2's amended theorem: one genuine select on `sC1`. -/
theorem selection_counter_consistency_witness :
    SelCounterInv ({ sC1 with
      phone_packages := setRow sC1.phone_packages 0 0
        { getRow sC1.phone_packages 0 0 with selected := true },
      selection := toggleSel sC1 0 0 true }) :=
  @selection_counter_consistency ahNone cfg0 sC1
    [Message.ListMsg 0 (RowMessage.ToggleSelection true)] _
    (GoodRun.cons (Or.inr (Or.inl ⟨rfl, by decide⟩)) rfl (GoodRun.nil _))
    (by decide)
